import Mathlib

/-!
Verification of the drawing-app core (src/src/App.svelte): pixel buffer
accessors, the iterative flood-fill engine, the history/undo stack, and the
persistence bridge, embedded shallowly in Lean.

The raster is a flat RGBA byte array (`Uint8ClampedArray` in the source),
modelled as `List Nat`.  Writes out of range are ignored by
`Uint8ClampedArray`, matching `List.set`; reads use a default of 0.
-/

namespace DrawingApp

/-- Mirrors `colorsMatch(a, b)` (App.svelte lines 184-186): component-wise
equality of the first four entries. -/
def colorsMatch (a b : List Nat) : Bool :=
  (a.getD 0 0 == b.getD 0 0) && (a.getD 1 0 == b.getD 1 0) &&
  (a.getD 2 0 == b.getD 2 0) && (a.getD 3 0 == b.getD 3 0)

/-- Mirrors `getColorAtPixel(data, x, y)` (lines 171-174): reads the four
bytes at linear offset `(y*width+x)*4`.  No bounds check is performed, as in
the source. -/
def getColorAtPixel (width : Nat) (data : List Nat) (x y : Nat) : List Nat :=
  let index := (y * width + x) * 4
  [data.getD index 0, data.getD (index + 1) 0,
   data.getD (index + 2) 0, data.getD (index + 3) 0]

/-- Mirrors `setColorAtPixel(data, x, y, color)` (lines 176-182): writes
R, G, B from `color` at linear offset `(y*width+x)*4` and forces A = 255.
No bounds check is performed, as in the source. -/
def setColorAtPixel (width : Nat) (data : List Nat) (x y : Nat)
    (color : List Nat) : List Nat :=
  let index := (y * width + x) * 4
  ((((data.set index (color.getD 0 0)).set (index + 1) (color.getD 1 0)).set
      (index + 2) (color.getD 2 0)).set (index + 3) 255)

/-- Mirrors `hexToRgb(hex)` (lines 188-191) after `parseInt`: the numeric
value of the hex string is split into R, G, B with alpha 255. -/
def hexToRgb (hex : Nat) : List Nat :=
  [(hex >>> 16) &&& 255, (hex >>> 8) &&& 255, hex &&& 255, 255]

/-- The color actually stored by `setColorAtPixel` when asked to write
`color`: R, G, B from `color`, alpha forced to 255. -/
def writtenColor (color : List Nat) : List Nat :=
  [color.getD 0 0, color.getD 1 0, color.getD 2 0, 255]

/-- The `ImageData` object produced by `ctx.getImageData`: dimensions plus
the flat RGBA byte array. -/
structure ImageData where
  width : Nat
  height : Nat
  data : List Nat
deriving DecidableEq

/-- The raster produced by `ctx.clearRect` over the whole canvas: every byte
zero (transparent black). -/
def blankRaster (w h : Nat) : ImageData :=
  { width := w, height := h, data := List.replicate (w * h * 4) 0 }

/-- The four in-bounds neighbor pushes of one flood-fill iteration
(lines 163-166), listed so that the head of the result is the last-pushed
array element, i.e. the next one `stack.pop()` returns. -/
def pushNeighbors (width height curX curY : Nat) : List (Nat × Nat) :=
  (if curY < height - 1 then [(curX, curY + 1)] else []) ++
  (if curY > 0 then [(curX, curY - 1)] else []) ++
  (if curX < width - 1 then [(curX + 1, curY)] else []) ++
  (if curX > 0 then [(curX - 1, curY)] else [])

/-- Mirrors the `while (stack.length)` loop of `floodFill` (lines 156-168).
The JS loop has no fuel; `fuel` is the embedding device for the partiality of
the loop, with `none` meaning the loop has not finished within `fuel`
iterations.  The list head plays the role of the top of the JS array stack. -/
def floodFillLoop (fillColor targetColor : List Nat) (width height : Nat) :
    Nat → List (Nat × Nat) → List Nat → Option (List Nat)
  | _, [], data => some data
  | 0, _ :: _, _ => none
  | fuel + 1, (curX, curY) :: stack, data =>
    if colorsMatch (getColorAtPixel width data curX curY) targetColor then
      floodFillLoop fillColor targetColor width height fuel
        (pushNeighbors width height curX curY ++ stack)
        (setColorAtPixel width data curX curY fillColor)
    else
      floodFillLoop fillColor targetColor width height fuel stack data

/-- Mirrors `floodFill(x, y, fillColor, targetColor, imageData)`
(lines 151-169).  The fuel `4*width*height + 2` is sufficient whenever the
loop terminates at all (see the termination theorem); a `none` result
corresponds to the JS loop never returning. -/
def floodFill (x y : Nat) (fillColor targetColor : List Nat)
    (img : ImageData) : Option ImageData :=
  (floodFillLoop fillColor targetColor img.width img.height
      (4 * img.width * img.height + 2) [(x, y)] img.data).map
    (fun d => { img with data := d })

/-- Termination of the flood-fill loop started from seed `(x, y)`: some
amount of fuel makes the embedded loop finish. -/
def floodFillTerminates (x y : Nat) (fillColor targetColor : List Nat)
    (img : ImageData) : Prop :=
  ∃ fuel d', floodFillLoop fillColor targetColor img.width img.height
      fuel [(x, y)] img.data = some d'

/-- Modelled from the spec: the two canvas composite modes used by `draw`
(lines 52-54) as their per-pixel effect, which is browser behavior and not
repository code.  Per section 4.4 of the spec, `source-over` with the opaque
stroke color overwrites the destination with that color (alpha 255), and
`destination-out` (erase) makes the covered destination pixel fully
transparent regardless of the source color. -/
def compositePixel (erase : Bool) (strokeColor _dst : List Nat) : List Nat :=
  if erase then [0, 0, 0, 0]
  else [strokeColor.getD 0 0, strokeColor.getD 1 0, strokeColor.getD 2 0, 255]

/-- Mirrors `minSize` (line 11), the `min` attribute of the brush-size range
input. -/
def minSize : Nat := 1

/-- Mirrors `maxSize` (line 12), the `max` attribute of the brush-size range
input. -/
def maxSize : Nat := 100

/-- Modelled from the spec: the brush-size selector is a bounded range input
(`min={minSize} max={maxSize}`, lines 226-232); the clamping of a requested
value into that range is performed by the browser's range-input control, not
by repository code. -/
def clampSize (n : Nat) : Nat :=
  min maxSize (max minSize n)

/-- The per-segment parameters `draw` (lines 49-68) installs on the canvas
context before calling `ctx.stroke()`: endpoints, stroke style, line width,
joins/caps, and composite mode (from the `erase` flag). -/
structure StrokeParams where
  fromX : Int
  fromY : Int
  toX : Int
  toY : Int
  strokeColor : Nat
  lineWidth : Nat
  lineJoin : String
  lineCap : String
  erase : Bool
deriving DecidableEq

/-- The rendering of one stroke segment by `ctx.stroke()` is browser
behavior, not repository code; the state machine below is parametrized by
it. -/
def StrokeFn : Type :=
  ImageData → StrokeParams → ImageData

/-- The mutable component state of App.svelte (lines 4-18), with the canvas
raster in place of the canvas element, the decoded snapshots in place of the
data-URL strings of `history`, and the `canvasData` local-storage slot as
`persisted` (spec section 4.5 requires the encode/decode round trip to be
lossless, so snapshots are modelled by the rasters themselves). -/
structure AppState where
  raster : ImageData
  isDrawing : Bool
  lastX : Int
  lastY : Int
  color : Nat
  sizeValue : Nat
  erase : Bool
  fillMode : Bool
  history : List ImageData
  undoEnabled : Bool
  persisted : Option ImageData
deriving DecidableEq

/-- The user/browser events the component handles (lines 208-243).
`mouseup` also stands for `mouseout` and `blur`, which run the same handler
`stopDrawing`; `setSize` is the range input writing through `bind:value`. -/
inductive Event where
  | mousedown (x y : Nat)
  | mousemove (x y : Nat)
  | mouseup
  | toggleErase
  | toggleFill
  | chooseColor (c : Nat)
  | setSize (n : Nat)
  | undo
  | clear
deriving DecidableEq

/-- Mirrors `saveHistory()` (lines 109-115): push the current canvas
snapshot at the end of `history` and enable undo. -/
def saveHistoryS (s : AppState) : AppState :=
  { s with history := s.history ++ [s.raster], undoEnabled := true }

/-- Mirrors `saveCanvasToLocalStorage()` (lines 91-96): overwrite the single
`canvasData` key with the current canvas snapshot. -/
def saveCanvasS (s : AppState) : AppState :=
  { s with persisted := some s.raster }

/-- Mirrors `startDrawing(event)` (lines 41-47). -/
def startDrawingApp (x y : Nat) (s : AppState) : AppState :=
  if s.fillMode then s
  else
    { saveHistoryS s with
        isDrawing := true, lastX := (x : Int) - 5, lastY := (y : Int) - 5 }

/-- The `StrokeParams` assembled by `draw` (lines 52-63) for the segment from
`(lastX, lastY)` to `(clientX - 5, clientY - 5)`. -/
def drawParams (s : AppState) (x y : Nat) : StrokeParams :=
  { fromX := s.lastX, fromY := s.lastY,
    toX := (x : Int) - 5, toY := (y : Int) - 5,
    strokeColor := s.color, lineWidth := s.sizeValue,
    lineJoin := "round", lineCap := "round", erase := s.erase }

/-- Mirrors `draw(event)` (lines 49-68): guard, stroke the segment, advance
the last point, save to local storage. -/
def drawApp (strokeFn : StrokeFn) (x y : Nat) (s : AppState) : AppState :=
  if !s.isDrawing || s.fillMode then s
  else
    let img := strokeFn s.raster (drawParams s x y)
    saveCanvasS { s with
      raster := img, lastX := (x : Int) - 5, lastY := (y : Int) - 5 }

/-- Mirrors `stopDrawing()` (lines 70-72). -/
def stopDrawingApp (s : AppState) : AppState :=
  { s with isDrawing := false }

/-- Mirrors `clear()` (lines 33-39): clear the raster, save the cleared
canvas, then remove the key (net effect: absent), empty the history, disable
undo. -/
def clearApp (s : AppState) : AppState :=
  let s1 := saveCanvasS
    { s with raster := blankRaster s.raster.width s.raster.height }
  { s1 with persisted := none, history := [], undoEnabled := false }

/-- Mirrors `undo()` (lines 117-132): return on empty history, otherwise pop
the most recent snapshot, recompute `undoEnabled`, and once the popped image
decodes, clear the canvas, draw the snapshot and save to local storage (the
asynchronous decode callback is modelled as running immediately, per spec
section 5 there is no interleaving in the claims considered here). -/
def undoApp (s : AppState) : AppState :=
  if s.history.isEmpty then s
  else
    match s.history.getLast? with
    | none => s
    | some previousState =>
      let history := s.history.dropLast
      saveCanvasS { s with
        history := history, undoEnabled := !history.isEmpty,
        raster := previousState }

/-- Mirrors `fill(event)` (lines 134-149): push a history snapshot, read the
fill and target colors, and unless they already match run the flood fill at
the click point and save.  A `none` from `floodFill` is the embedded image of
the JS loop never returning; the raster is then left as is. -/
def fillApp (x y : Nat) (s : AppState) : AppState :=
  if !s.fillMode then s
  else
    let s1 := saveHistoryS s
    let fillColor := hexToRgb s1.color
    let targetColor := getColorAtPixel s1.raster.width s1.raster.data x y
    if colorsMatch fillColor targetColor then s1
    else
      let img := (floodFill x y fillColor targetColor s1.raster).getD s1.raster
      saveCanvasS { s1 with raster := img }

/-- Mirrors `chooseColor(event)` (lines 28-31). -/
def chooseColorApp (c : Nat) (s : AppState) : AppState :=
  { s with color := c }

/-- The range input writing a (clamped) requested size through
`bind:value={sizeValue}` (lines 226-232). -/
def setSizeApp (n : Nat) (s : AppState) : AppState :=
  { s with sizeValue := clampSize n }

/-- Mirrors `toggleErase()` (lines 20-22). -/
def toggleEraseApp (s : AppState) : AppState :=
  { s with erase := !s.erase }

/-- Mirrors `toggleFill()` (lines 24-26). -/
def toggleFillApp (s : AppState) : AppState :=
  { s with fillMode := !s.fillMode }

/-- Mirrors `loadCanvasFromLocalStorage()` (lines 98-107): an absent key is
a no-op (spec: `Absent`, proceed with the blank canvas); a present one is
decoded and drawn onto the (blank at startup) canvas. -/
def loadCanvasFromLocalStorage (s : AppState) : AppState :=
  match s.persisted with
  | none => s
  | some savedData => { s with raster := savedData }

/-- One step of the event-driven component: the dispatch of lines 208-243
(`on:mousedown={fillMode ? fill : startDrawing}`, `on:mousemove={draw}`,
`on:mouseup`/`mouseout`/`blur` to `stopDrawing`, and the control buttons). -/
def step (strokeFn : StrokeFn) (s : AppState) : Event → AppState
  | .mousedown x y => if s.fillMode then fillApp x y s else startDrawingApp x y s
  | .mousemove x y => drawApp strokeFn x y s
  | .mouseup => stopDrawingApp s
  | .toggleErase => toggleEraseApp s
  | .toggleFill => toggleFillApp s
  | .chooseColor c => chooseColorApp c s
  | .setSize n => setSizeApp n s
  | .undo => undoApp s
  | .clear => clearApp s

/-- Run a sequence of events from a given state. -/
def runFrom (strokeFn : StrokeFn) (s : AppState) (trace : List Event) :
    AppState :=
  trace.foldl (step strokeFn) s

/-- The component state right after `onMount` (lines 193-201) with empty
local storage: a blank full-window canvas of the given size and the initial
bindings of lines 7-18. -/
def initState (w h : Nat) : AppState :=
  { raster := blankRaster w h, isDrawing := false, lastX := 0, lastY := 0,
    color := 0xFFFFFF, sizeValue := 5, erase := false, fillMode := false,
    history := [], undoEnabled := false, persisted := none }

/-- Run a sequence of events from the initial state on a `w × h` canvas. -/
def run (strokeFn : StrokeFn) (w h : Nat) (trace : List Event) : AppState :=
  runFrom strokeFn (initState w h) trace

/-- A stroke renderer that paints nothing, used to instantiate the
`StrokeFn` parameter on concrete traces that contain no `mousemove`. -/
def strokeFn0 : StrokeFn :=
  fun img _ => img

/-- The fold computing the history length along a trace: each mousedown
(stroke start or fill) pushes one snapshot, an undo pops one when the history
is non-empty (`Nat` subtraction makes an undo on empty history a no-op), and
a clear empties the stack. -/
def histCount : Nat → List Event → Nat
  | n, [] => n
  | n, .mousedown _ _ :: tr => histCount (n + 1) tr
  | n, .undo :: tr => histCount (n - 1) tr
  | _, .clear :: tr => histCount 0 tr
  | n, _ :: tr => histCount n tr

/-- The number of destructive operations (mousedowns, i.e. stroke starts or
fills) performed since the last clear in a trace. -/
def destructiveSince : Nat → List Event → Nat
  | n, [] => n
  | n, .mousedown _ _ :: tr => destructiveSince (n + 1) tr
  | _, .clear :: tr => destructiveSince 0 tr
  | n, _ :: tr => destructiveSince n tr

/-- Events that neither write nor remove the `canvasData` key and leave the
history untouched when it is empty: everything except a mousedown (which
pushes a snapshot and, for a fill, may save), a mousemove (which saves while
drawing) and a clear. -/
def passive : Event → Bool
  | .mouseup | .toggleErase | .toggleFill
  | .chooseColor _ | .setSize _ | .undo => true
  | _ => false

end DrawingApp

namespace DrawingApp

/-! Basic lemmas about the flat byte array and the pixel accessors. -/

lemma getD_set_self (l : List Nat) (i v : Nat) (h : i < l.length) :
    (l.set i v).getD i 0 = v := by
  show ((l.set i v).get? i).getD 0 = v
  rw [List.get?_set_eq_of_lt v h]
  rfl

lemma getD_set_ne (l : List Nat) (i j v : Nat) (h : i ≠ j) :
    (l.set i v).getD j 0 = l.getD j 0 := by
  show ((l.set i v).get? j).getD 0 = (l.get? j).getD 0
  rw [List.get?_set_ne v l h]

lemma length_setColorAtPixel (w : Nat) (d : List Nat) (x y : Nat)
    (c : List Nat) : (setColorAtPixel w d x y c).length = d.length := by
  simp [setColorAtPixel]

/-- Reading the pixel just written: the stored color is `writtenColor c`
(R, G, B from `c`, alpha forced to 255). -/
lemma getColor_setColor_same (w : Nat) (d : List Nat) (x y : Nat)
    (c : List Nat) (h : (y * w + x) * 4 + 3 < d.length) :
    getColorAtPixel w (setColorAtPixel w d x y c) x y = writtenColor c := by
  simp only [getColorAtPixel, setColorAtPixel, writtenColor]
  have h0 : (y * w + x) * 4 < d.length := by omega
  have h1 : (y * w + x) * 4 + 1 < d.length := by omega
  have h2 : (y * w + x) * 4 + 2 < d.length := by omega
  rw [getD_set_ne _ _ _ _ (by omega), getD_set_ne _ _ _ _ (by omega),
    getD_set_ne _ _ _ _ (by omega),
    getD_set_self _ _ _ (by simpa using h0),
    getD_set_ne _ _ _ _ (by omega), getD_set_ne _ _ _ _ (by omega),
    getD_set_self _ _ _ (by simpa using h1),
    getD_set_ne _ _ _ _ (by omega),
    getD_set_self _ _ _ (by simpa using h2),
    getD_set_self _ _ _ (by simpa using h)]

/-- Distinct in-bounds pixel coordinates have distinct linear row-major
indices. -/
lemma rowIndex_ne {w x y x' y' : Nat} (hx : x < w) (hx' : x' < w)
    (hne : (x, y) ≠ (x', y')) : y * w + x ≠ y' * w + x' := by
  intro hEq
  apply hne
  have hw : 0 < w := Nat.lt_of_le_of_lt (Nat.zero_le x) hx
  have hmod : (y * w + x) % w = (y' * w + x') % w := by rw [hEq]
  have hdiv : (y * w + x) / w = (y' * w + x') / w := by rw [hEq]
  rw [Nat.add_comm (y * w) x, Nat.add_comm (y' * w) x'] at hmod hdiv
  rw [Nat.add_mul_mod_self_right, Nat.add_mul_mod_self_right,
    Nat.mod_eq_of_lt hx, Nat.mod_eq_of_lt hx'] at hmod
  rw [Nat.add_mul_div_right _ _ hw, Nat.add_mul_div_right _ _ hw,
    Nat.div_eq_of_lt hx, Nat.div_eq_of_lt hx'] at hdiv
  simp only [Nat.zero_add] at hdiv
  exact Prod.ext hmod hdiv

/-- A byte outside the four-byte block written by `setColorAtPixel` is
unchanged. -/
lemma getD_setColor_untouched (w : Nat) (d : List Nat) (x y : Nat)
    (c : List Nat) (i : Nat)
    (hdis : ∀ j, j < 4 → (y * w + x) * 4 + j ≠ i) :
    (setColorAtPixel w d x y c).getD i 0 = d.getD i 0 := by
  simp only [setColorAtPixel]
  rw [getD_set_ne _ _ _ _ (hdis 3 (by omega)),
    getD_set_ne _ _ _ _ (hdis 2 (by omega)),
    getD_set_ne _ _ _ _ (hdis 1 (by omega)),
    getD_set_ne _ _ _ _ (by simpa using hdis 0 (by omega))]

/-- Writing one in-bounds pixel leaves every other in-bounds pixel
unchanged. -/
lemma getColor_setColor_other (w : Nat) (d : List Nat) {x y x' y' : Nat}
    (c : List Nat) (hx : x < w) (hx' : x' < w)
    (hne : (x, y) ≠ (x', y')) :
    getColorAtPixel w (setColorAtPixel w d x y c) x' y' =
      getColorAtPixel w d x' y' := by
  have hrow := rowIndex_ne hx hx' hne
  simp only [getColorAtPixel]
  rw [getD_setColor_untouched _ _ _ _ _ _ (fun j hj => by omega),
    getD_setColor_untouched _ _ _ _ _ _ (fun j hj => by omega),
    getD_setColor_untouched _ _ _ _ _ _ (fun j hj => by omega),
    getD_setColor_untouched _ _ _ _ _ _ (fun j hj => by omega)]

/-- The linear index of an in-bounds pixel, plus its three following bytes,
is within a `w*h*4`-byte raster. -/
lemma pixelIndex_lt {w h x y : Nat} (hx : x < w) (hy : y < h) :
    (y * w + x) * 4 + 3 < w * h * 4 := by
  have h1 : y * w + x < h * w := by
    calc y * w + x < y * w + w := by omega
    _ = (y + 1) * w := by ring
    _ ≤ h * w := Nat.mul_le_mul_right w hy
  calc (y * w + x) * 4 + 3 < (y * w + x) * 4 + 4 := by omega
  _ = (y * w + x + 1) * 4 := by ring
  _ ≤ h * w * 4 := Nat.mul_le_mul_right 4 (by omega)
  _ = w * h * 4 := by ring

lemma colorsMatch_refl (a : List Nat) : colorsMatch a a = true := by
  simp [colorsMatch]

/-! Termination of the flood-fill loop.  The measure is four times the
number of in-bounds pixels still matching `targetColor` plus the stack
length: a popped non-matching pixel shrinks the stack, and a popped matching
pixel is repainted to a color that no longer matches (provided the stored
color `writtenColor fillColor` differs from `targetColor`), trading one
matching pixel for at most four new stack entries. -/

/-- The 4-neighbor (von Neumann) adjacency of the spec, stated without
truncated subtraction. -/
def adjacent (p q : Nat × Nat) : Prop :=
  (q.1 = p.1 + 1 ∧ q.2 = p.2) ∨ (q.1 + 1 = p.1 ∧ q.2 = p.2) ∨
  (q.2 = p.2 + 1 ∧ q.1 = p.1) ∨ (q.2 + 1 = p.2 ∧ q.1 = p.1)

/-- The number of in-bounds pixels whose current color matches `t`. -/
def matchCount (w h : Nat) (t d : List Nat) : Nat :=
  ((Finset.range w ×ˢ Finset.range h).filter
    (fun p => colorsMatch (getColorAtPixel w d p.1 p.2) t = true)).card

lemma matchCount_le (w h : Nat) (t d : List Nat) :
    matchCount w h t d ≤ w * h := by
  calc matchCount w h t d ≤ (Finset.range w ×ˢ Finset.range h).card :=
        Finset.card_filter_le _ _
  _ = w * h := by simp [Finset.card_product]

lemma mem_ite_singleton {c : Prop} [Decidable c] {a q : Nat × Nat}
    (h : q ∈ if c then [a] else ([] : List (Nat × Nat))) : q = a ∧ c := by
  split at h
  · next hc => simp only [List.mem_singleton] at h; exact ⟨h, hc⟩
  · simp at h

lemma mem_pushNeighbors {w h px py : Nat} {q : Nat × Nat}
    (hq : q ∈ pushNeighbors w h px py) :
    (q = (px, py + 1) ∧ py < h - 1) ∨ (q = (px, py - 1) ∧ 0 < py) ∨
    (q = (px + 1, py) ∧ px < w - 1) ∨ (q = (px - 1, py) ∧ 0 < px) := by
  simp only [pushNeighbors, List.mem_append] at hq
  rcases hq with ((h1 | h1) | h1) | h1
  · exact Or.inl (mem_ite_singleton h1)
  · exact Or.inr (Or.inl (mem_ite_singleton h1))
  · exact Or.inr (Or.inr (Or.inl (mem_ite_singleton h1)))
  · exact Or.inr (Or.inr (Or.inr (mem_ite_singleton h1)))

lemma mem_pushNeighbors_inBnds {w h px py : Nat} {q : Nat × Nat}
    (hx : px < w) (hy : py < h) (hq : q ∈ pushNeighbors w h px py) :
    q.1 < w ∧ q.2 < h := by
  rcases mem_pushNeighbors hq with ⟨rfl, hg⟩ | ⟨rfl, hg⟩ | ⟨rfl, hg⟩ | ⟨rfl, hg⟩
  · exact ⟨hx, by show py + 1 < h; omega⟩
  · exact ⟨hx, by show py - 1 < h; omega⟩
  · exact ⟨by show px + 1 < w; omega, hy⟩
  · exact ⟨by show px - 1 < w; omega, hy⟩

lemma mem_pushNeighbors_adjacent {w h px py : Nat} {q : Nat × Nat}
    (hq : q ∈ pushNeighbors w h px py) : adjacent (px, py) q := by
  rcases mem_pushNeighbors hq with ⟨rfl, hg⟩ | ⟨rfl, hg⟩ | ⟨rfl, hg⟩ | ⟨rfl, hg⟩
  · exact Or.inr (Or.inr (Or.inl ⟨rfl, rfl⟩))
  · exact Or.inr (Or.inr (Or.inr ⟨by show py - 1 + 1 = py; omega, rfl⟩))
  · exact Or.inl ⟨rfl, rfl⟩
  · exact Or.inr (Or.inl ⟨by show px - 1 + 1 = px; omega, rfl⟩)

lemma adjacent_mem_pushNeighbors {w h px py : Nat} {q : Nat × Nat}
    (hadj : adjacent (px, py) q) (hq1 : q.1 < w) (hq2 : q.2 < h) :
    q ∈ pushNeighbors w h px py := by
  obtain ⟨qx, qy⟩ := q
  have hq1x : qx < w := hq1
  have hq2y : qy < h := hq2
  simp only [adjacent] at hadj
  show (qx, qy) ∈ _ ++ _ ++ _ ++ _
  rcases hadj with ⟨h1, h2⟩ | ⟨h1, h2⟩ | ⟨h1, h2⟩ | ⟨h1, h2⟩
  · have h1x : qx = px + 1 := h1
    have h2y : qy = py := h2
    refine List.mem_append_left _ (List.mem_append_right _ ?_)
    rw [if_pos (show px < w - 1 by omega)]
    exact List.mem_singleton.mpr (by rw [h1x, h2y])
  · have h1x : qx + 1 = px := h1
    have h2y : qy = py := h2
    refine List.mem_append_right _ ?_
    rw [if_pos (show 0 < px by omega)]
    exact List.mem_singleton.mpr (by rw [show px - 1 = qx by omega, h2y])
  · have h1y : qy = py + 1 := h1
    have h2x : qx = px := h2
    refine List.mem_append_left _
      (List.mem_append_left _ (List.mem_append_left _ ?_))
    rw [if_pos (show py < h - 1 by omega)]
    exact List.mem_singleton.mpr (by rw [h1y, h2x])
  · have h1y : qy + 1 = py := h1
    have h2x : qx = px := h2
    refine List.mem_append_left _
      (List.mem_append_left _ (List.mem_append_right _ ?_))
    rw [if_pos (show 0 < py by omega)]
    exact List.mem_singleton.mpr (by rw [show py - 1 = qy by omega, h2x])

lemma pushNeighbors_length_le (w h px py : Nat) :
    (pushNeighbors w h px py).length ≤ 4 := by
  simp only [pushNeighbors, List.length_append]
  split_ifs <;> simp

/-- Repainting a matching in-bounds pixel with a color whose stored value
does not match `t` removes exactly that pixel from the matching set. -/
lemma matchCount_after_set {w h : Nat} {t f d : List Nat} {px py : Nat}
    (hx : px < w) (hy : py < h) (hlen : d.length = w * h * 4)
    (hwt : colorsMatch (writtenColor f) t = false)
    (hm : colorsMatch (getColorAtPixel w d px py) t = true) :
    matchCount w h t (setColorAtPixel w d px py f) + 1 = matchCount w h t d := by
  have hidx : (py * w + px) * 4 + 3 < d.length := by
    rw [hlen]; exact pixelIndex_lt hx hy
  have hmem : ((px, py) : Nat × Nat) ∈ (Finset.range w ×ˢ Finset.range h).filter
      (fun p => colorsMatch (getColorAtPixel w d p.1 p.2) t = true) := by
    simp only [Finset.mem_filter, Finset.mem_product, Finset.mem_range]
    exact ⟨⟨hx, hy⟩, hm⟩
  have hset : (Finset.range w ×ˢ Finset.range h).filter
      (fun p => colorsMatch
        (getColorAtPixel w (setColorAtPixel w d px py f) p.1 p.2) t = true) =
      ((Finset.range w ×ˢ Finset.range h).filter
        (fun p => colorsMatch (getColorAtPixel w d p.1 p.2) t = true)).erase
        (px, py) := by
    ext q
    obtain ⟨qx, qy⟩ := q
    simp only [Finset.mem_erase, Finset.mem_filter, Finset.mem_product,
      Finset.mem_range]
    constructor
    · rintro ⟨⟨hq1, hq2⟩, hqm⟩
      by_cases hqp : qx = px ∧ qy = py
      · obtain ⟨rfl, rfl⟩ := hqp
        rw [getColor_setColor_same _ _ _ _ _ hidx] at hqm
        rw [hqm] at hwt
        cases hwt
      · have hne : ((px, py) : Nat × Nat) ≠ (qx, qy) := by
          intro hEq
          injection hEq with e1 e2
          exact hqp ⟨e1.symm, e2.symm⟩
        rw [getColor_setColor_other _ _ _ hx hq1 hne] at hqm
        refine ⟨?_, ⟨hq1, hq2⟩, hqm⟩
        intro hEq
        injection hEq with e1 e2
        exact hqp ⟨e1, e2⟩
    · rintro ⟨hqp, ⟨hq1, hq2⟩, hqm⟩
      have hne : ((px, py) : Nat × Nat) ≠ (qx, qy) := by
        intro hEq
        injection hEq with e1 e2
        exact hqp (by rw [e1, e2])
      refine ⟨⟨hq1, hq2⟩, ?_⟩
      rw [getColor_setColor_other _ _ _ hx hq1 hne]
      exact hqm
  have hcard := Finset.card_erase_of_mem hmem
  have hpos : 0 < ((Finset.range w ×ˢ Finset.range h).filter
      (fun p => colorsMatch (getColorAtPixel w d p.1 p.2) t = true)).card :=
    Finset.card_pos.mpr ⟨_, hmem⟩
  simp only [matchCount, hset, hcard]
  omega

/-- Termination of the flood-fill loop, by the measure
`4 * matchCount + stack length`. -/
lemma floodFillLoop_terminates_of_measure {w h : Nat} {t f : List Nat}
    (hwt : colorsMatch (writtenColor f) t = false) :
    ∀ (fuel : Nat) (stack : List (Nat × Nat)) (d : List Nat),
      d.length = w * h * 4 →
      (∀ p ∈ stack, p.1 < w ∧ p.2 < h) →
      4 * matchCount w h t d + stack.length < fuel →
      ∃ d', floodFillLoop f t w h fuel stack d = some d' := by
  intro fuel
  induction fuel with
  | zero => intro stack d _ _ hm; omega
  | succ n ih =>
    intro stack d hlen hstack hm
    match stack with
    | [] => exact ⟨d, rfl⟩
    | (px, py) :: rest =>
      have hp := hstack (px, py) (List.mem_cons_self _ _)
      have hp1 : px < w := hp.1
      have hp2 : py < h := hp.2
      by_cases hc : colorsMatch (getColorAtPixel w d px py) t = true
      · have hcount := matchCount_after_set hp1 hp2 hlen hwt hc
        have hlen2 := length_setColorAtPixel w d px py f
        have hstack2 : ∀ p ∈ pushNeighbors w h px py ++ rest,
            p.1 < w ∧ p.2 < h := by
          intro p hmem2
          rcases List.mem_append.mp hmem2 with hmem2 | hmem2
          · exact mem_pushNeighbors_inBnds hp1 hp2 hmem2
          · exact hstack _ (List.mem_cons_of_mem _ hmem2)
        have hpush := pushNeighbors_length_le w h px py
        have hmeas : 4 * matchCount w h t (setColorAtPixel w d px py f) +
            (pushNeighbors w h px py ++ rest).length < n := by
          rw [List.length_append]
          simp only [List.length_cons] at hm
          omega
        obtain ⟨d', hd'⟩ := ih (pushNeighbors w h px py ++ rest)
          (setColorAtPixel w d px py f) (by omega) hstack2 hmeas
        refine ⟨d', ?_⟩
        simp only [floodFillLoop, hc, if_true]
        exact hd'
      · have hmeas : 4 * matchCount w h t d + rest.length < n := by
          simp only [List.length_cons] at hm
          omega
        obtain ⟨d', hd'⟩ := ih rest d hlen
          (fun p hp2 => hstack _ (List.mem_cons_of_mem _ hp2)) hmeas
        refine ⟨d', ?_⟩
        simp only [floodFillLoop, hc, if_false]
        exact hd'

/-- Canonical-fuel form: with fuel `4*w*h + 2` the embedded `floodFill`
returns a result whenever the raster is well-formed, the seed is in bounds,
and the stored fill color does not match the target. -/
lemma floodFill_isSome {img : ImageData} {x y : Nat} {f t : List Nat}
    (hlen : img.data.length = img.width * img.height * 4)
    (hx : x < img.width) (hy : y < img.height)
    (hwt : colorsMatch (writtenColor f) t = false) :
    ∃ d', floodFillLoop f t img.width img.height
      (4 * img.width * img.height + 2) [(x, y)] img.data = some d' := by
  apply floodFillLoop_terminates_of_measure hwt _ _ _ hlen
  · intro p hp
    simp only [List.mem_singleton] at hp
    subst hp
    exact ⟨hx, hy⟩
  · have := matchCount_le img.width img.height t img.data
    simp only [List.length_singleton]
    rw [Nat.mul_assoc]
    omega

/-! Functional correctness of the flood fill: it repaints exactly the
4-connected component of the seed among pixels matching the target color. -/

/-- Reachability by a 4-connected path all of whose pixels lie in `S`. -/
inductive ReachIn (S : Nat × Nat → Prop) : Nat × Nat → Nat × Nat → Prop
  | refl (p : Nat × Nat) : S p → ReachIn S p p
  | tail {p q r : Nat × Nat} :
      ReachIn S p q → adjacent q r → S r → ReachIn S p r

lemma reachIn_mono {S T : Nat × Nat → Prop} (hST : ∀ p, S p → T p)
    {p r : Nat × Nat} (h : ReachIn S p r) : ReachIn T p r := by
  induction h with
  | refl hp => exact ReachIn.refl _ (hST _ hp)
  | tail _ hadj hr ih => exact ReachIn.tail ih hadj (hST _ hr)

lemma reachIn_src {S : Nat × Nat → Prop} {p r : Nat × Nat}
    (h : ReachIn S p r) : S p := by
  induction h with
  | refl hp => exact hp
  | tail _ _ _ ih => exact ih

lemma reachIn_dest {S : Nat × Nat → Prop} {p r : Nat × Nat}
    (h : ReachIn S p r) : S r := by
  cases h with
  | refl hp => exact hp
  | tail _ _ hr => exact hr

/-- Removing one vertex `a` from the allowed set: an `S`-path from `p` to
`r` either avoids `a` entirely, ends at `a`, or has a suffix starting at a
neighbor of `a` that avoids `a` (take the part after the last visit to
`a`). -/
lemma reachIn_avoid {S : Nat × Nat → Prop} (a : Nat × Nat) {p r : Nat × Nat}
    (h : ReachIn S p r) :
    ReachIn (fun q => S q ∧ q ≠ a) p r ∨ r = a ∨
    ∃ n, adjacent a n ∧ ReachIn (fun q => S q ∧ q ≠ a) n r := by
  induction h with
  | refl hp =>
    by_cases hpa : p = a
    · exact Or.inr (Or.inl hpa)
    · exact Or.inl (ReachIn.refl p ⟨hp, hpa⟩)
  | @tail qq rr hpq hadj hr ih =>
    by_cases hra : rr = a
    · exact Or.inr (Or.inl hra)
    · rcases ih with hq | hqa | ⟨n, han, hnr⟩
      · exact Or.inl (ReachIn.tail hq hadj ⟨hr, hra⟩)
      · subst hqa
        exact Or.inr (Or.inr ⟨rr, hadj, ReachIn.refl rr ⟨hr, hra⟩⟩)
      · exact Or.inr (Or.inr ⟨n, han, ReachIn.tail hnr hadj ⟨hr, hra⟩⟩)

/-- The pixel set of the spec's region: in bounds and matching `t` in the
original raster `d`. -/
def regionS (w h : Nat) (d t : List Nat) (p : Nat × Nat) : Prop :=
  p.1 < w ∧ p.2 < h ∧ colorsMatch (getColorAtPixel w d p.1 p.2) t = true

/-- The 4-connected region of the seed: every pixel reachable from `seed`
by a 4-connected path through in-bounds pixels matching `t` in `d`.  This is
the spec's "fully enclosed 4-connected region of uniform color" containing
the seed (the enclosure is automatic: every pixel bordering the component
fails to match `t`, else it would belong to it). -/
def region (w h : Nat) (d t : List Nat) (seed p : Nat × Nat) : Prop :=
  ReachIn (regionS w h d t) seed p

/-- Loop invariant on the byte array: raster `d` agrees with the original
`d0` except on the already-filled set `F`, where it stores
`writtenColor f`. -/
def charF (w h : Nat) (d0 f : List Nat) (F : Finset (Nat × Nat))
    (d : List Nat) : Prop :=
  d.length = d0.length ∧
  ∀ p : Nat × Nat, p.1 < w → p.2 < h →
    getColorAtPixel w d p.1 p.2 =
      if p ∈ F then writtenColor f else getColorAtPixel w d0 p.1 p.2

/-- The master invariant argument for the flood-fill loop.  Invariants:
the raster is `d0` overwritten with `writtenColor f` exactly on `F`
(`charF`); stack entries are in bounds, and reachable from the seed whenever
they match `t` in `d0`; `F` contains only region pixels; and every region
pixel not yet in `F` is reachable from some stack entry through
not-yet-filled region pixels.  When the loop finishes, the last invariant
forces `F` to contain the whole region and the third bounds it by the
region. -/
lemma flood_master {w h : Nat} {d0 t f : List Nat} (seed : Nat × Nat)
    (hsize : d0.length = w * h * 4)
    (hwt : colorsMatch (writtenColor f) t = false) :
    ∀ (fuel : Nat) (stack : List (Nat × Nat)) (F : Finset (Nat × Nat))
      (d : List Nat),
      charF w h d0 f F d →
      (∀ p ∈ stack, p.1 < w ∧ p.2 < h ∧
        (colorsMatch (getColorAtPixel w d0 p.1 p.2) t = true →
          region w h d0 t seed p)) →
      (∀ p ∈ F, region w h d0 t seed p) →
      (∀ r, region w h d0 t seed r → r ∈ F ∨ ∃ q ∈ stack,
        ReachIn (fun q' => regionS w h d0 t q' ∧ q' ∉ F) q r) →
      ∀ d', floodFillLoop f t w h fuel stack d = some d' →
      ∃ F', charF w h d0 f F' d' ∧ (∀ p ∈ F', region w h d0 t seed p) ∧
        (∀ r, region w h d0 t seed r → r ∈ F') := by
  intro fuel
  induction fuel with
  | zero =>
    intro stack F d hchar hstack hF hcomp d' hrun
    match stack, hrun with
    | [], hrun =>
      refine ⟨F, ?_, hF, ?_⟩
      · cases hrun
        exact hchar
      · intro r hr
        rcases hcomp r hr with hrF | ⟨q, hq, _⟩
        · exact hrF
        · cases hq
    | _ :: _, hrun => cases hrun
  | succ n ih =>
    intro stack F d hchar hstack hF hcomp d' hrun
    match stack with
    | [] =>
      cases hrun
      refine ⟨F, hchar, hF, ?_⟩
      intro r hr
      rcases hcomp r hr with hrF | ⟨q, hq, _⟩
      · exact hrF
      · cases hq
    | (px, py) :: rest =>
      have hp := hstack (px, py) (List.mem_cons_self _ _)
      have hp1 : px < w := hp.1
      have hp2 : py < h := hp.2.1
      have hidx : (py * w + px) * 4 + 3 < d.length := by
        rw [hchar.1, hsize]
        exact pixelIndex_lt hp1 hp2
      by_cases hc : colorsMatch (getColorAtPixel w d px py) t = true
      · -- the popped pixel still matches: repaint it and push the neighbors
        have hchar2 := hchar.2 (px, py) hp1 hp2
        have hpF : ((px, py) : Nat × Nat) ∉ F := by
          intro hmem
          rw [if_pos hmem] at hchar2
          rw [hchar2] at hc
          rw [hc] at hwt
          cases hwt
        rw [if_neg hpF] at hchar2
        have hm0 : colorsMatch (getColorAtPixel w d0 px py) t = true := by
          rw [← hchar2]
          exact hc
        have hreg : region w h d0 t seed (px, py) := hp.2.2 hm0
        have hregS : regionS w h d0 t (px, py) := ⟨hp1, hp2, hm0⟩
        -- invariants for the next iteration
        have hchar' : charF w h d0 f (insert (px, py) F)
            (setColorAtPixel w d px py f) := by
          constructor
          · rw [length_setColorAtPixel, hchar.1]
          · intro q hq1 hq2
            by_cases hqp : q = (px, py)
            · subst hqp
              rw [getColor_setColor_same _ _ _ _ _ hidx,
                if_pos (Finset.mem_insert_self _ _)]
            · have hne : ((px, py) : Nat × Nat) ≠ (q.1, q.2) := fun hEq =>
                hqp hEq.symm
              rw [getColor_setColor_other _ _ _ hp1 hq1 hne, hchar.2 q hq1 hq2]
              by_cases hqF : q ∈ F
              · rw [if_pos hqF, if_pos (Finset.mem_insert_of_mem hqF)]
              · rw [if_neg hqF, if_neg (by
                  intro hmem
                  rcases Finset.mem_insert.mp hmem with hEq | hqF2
                  · exact hqp hEq
                  · exact hqF hqF2)]
        have hstack' : ∀ p ∈ pushNeighbors w h px py ++ rest,
            p.1 < w ∧ p.2 < h ∧
            (colorsMatch (getColorAtPixel w d0 p.1 p.2) t = true →
              region w h d0 t seed p) := by
          intro q hq
          rcases List.mem_append.mp hq with hq | hq
          · have hb := mem_pushNeighbors_inBnds hp1 hp2 hq
            refine ⟨hb.1, hb.2, ?_⟩
            intro hqm
            exact ReachIn.tail hreg (mem_pushNeighbors_adjacent hq)
              ⟨hb.1, hb.2, hqm⟩
          · exact hstack _ (List.mem_cons_of_mem _ hq)
        have hF' : ∀ p ∈ insert (px, py) F, region w h d0 t seed p := by
          intro q hq
          rcases Finset.mem_insert.mp hq with hEq | hqF
          · subst hEq
            exact hreg
          · exact hF q hqF
        have hcomp' : ∀ r, region w h d0 t seed r →
            r ∈ insert (px, py) F ∨ ∃ q ∈ pushNeighbors w h px py ++ rest,
              ReachIn (fun q' => regionS w h d0 t q' ∧
                q' ∉ insert (px, py) F) q r := by
          intro r hr
          rcases hcomp r hr with hrF | ⟨q, hq, hpath⟩
          · exact Or.inl (Finset.mem_insert_of_mem hrF)
          · rcases reachIn_avoid (px, py) hpath with
              hpath' | hEq | ⟨nb, hadjnb, hpathnb⟩
            · -- the path avoids the popped pixel: its source is in the rest
              have hsrc := reachIn_src hpath'
              have hqne : q ≠ (px, py) := hsrc.2
              have hqrest : q ∈ rest := by
                rcases List.mem_cons.mp hq with hEq | hmem
                · exact absurd hEq hqne
                · exact hmem
              refine Or.inr ⟨q, List.mem_append_right _ hqrest, ?_⟩
              refine reachIn_mono ?_ hpath'
              intro q' hq'
              refine ⟨hq'.1.1, ?_⟩
              intro hmem
              rcases Finset.mem_insert.mp hmem with hEq | hqF2
              · exact hq'.2 hEq
              · exact hq'.1.2 hqF2
            · exact Or.inl (by rw [hEq]; exact Finset.mem_insert_self _ _)
            · -- the path's suffix starts at a neighbor of the popped pixel
              have hdest := reachIn_src hpathnb
              simp only [regionS] at hdest
              obtain ⟨⟨⟨hnb1, hnb2, hnbm⟩, hnbF⟩, hnbne⟩ := hdest
              refine Or.inr ⟨nb, List.mem_append_left _
                (adjacent_mem_pushNeighbors hadjnb hnb1 hnb2), ?_⟩
              refine reachIn_mono ?_ hpathnb
              intro q' hq'
              refine ⟨hq'.1.1, ?_⟩
              intro hmem
              rcases Finset.mem_insert.mp hmem with hEq | hqF2
              · exact hq'.2 hEq
              · exact hq'.1.2 hqF2
        have hrun' : floodFillLoop f t w h n
            (pushNeighbors w h px py ++ rest)
            (setColorAtPixel w d px py f) = some d' := by
          simp only [floodFillLoop, hc, if_true] at hrun
          exact hrun
        exact ih (pushNeighbors w h px py ++ rest) (insert (px, py) F)
          (setColorAtPixel w d px py f) hchar' hstack' hF' hcomp' d' hrun'
      · -- the popped pixel no longer matches: drop it
        have hcomp' : ∀ r, region w h d0 t seed r → r ∈ F ∨ ∃ q ∈ rest,
            ReachIn (fun q' => regionS w h d0 t q' ∧ q' ∉ F) q r := by
          intro r hr
          rcases hcomp r hr with hrF | ⟨q, hq, hpath⟩
          · exact Or.inl hrF
          · have hsrc := reachIn_src hpath
            simp only [regionS] at hsrc
            obtain ⟨⟨hq1, hq2, hqm⟩, hqF⟩ := hsrc
            have hqne : q ≠ (px, py) := by
              intro hEq
              have heq2 := hchar.2 q hq1 hq2
              rw [if_neg hqF] at heq2
              rw [hEq] at heq2 hqm
              rw [heq2] at hc
              exact hc hqm
            have hqrest : q ∈ rest := by
              rcases List.mem_cons.mp hq with hEq | hmem
              · exact absurd hEq hqne
              · exact hmem
            exact Or.inr ⟨q, hqrest, hpath⟩
        have hrun' : floodFillLoop f t w h n rest d = some d' := by
          simp only [floodFillLoop, hc, if_false] at hrun
          exact hrun
        exact ih rest F d hchar
          (fun p hp3 => hstack _ (List.mem_cons_of_mem _ hp3)) hF hcomp' d' hrun'

/-- A 4-component color whose alpha component is 255 is stored verbatim by
`setColorAtPixel`. -/
lemma writtenColor_eq_self {f : List Nat} (h4 : f.length = 4)
    (ha : f.getD 3 0 = 255) : writtenColor f = f := by
  rcases f with _ | ⟨a, f⟩
  · simp at h4
  rcases f with _ | ⟨b, f⟩
  · simp at h4
  rcases f with _ | ⟨c, f⟩
  · simp at h4
  rcases f with _ | ⟨e, f⟩
  · simp at h4
  rcases f with _ | ⟨g, f⟩
  · simp only [List.getD, List.get?, Option.getD] at ha
    subst ha
    rfl
  · simp at h4

/-- Full functional correctness of `floodFill`: starting in bounds with the
target color read at the seed and a fill color (alpha 255) that differs from
it, the loop terminates and repaints exactly the 4-connected component of
the seed among pixels matching the target color, leaving every other
in-bounds pixel unchanged. -/
theorem floodFill_fills_exactly_region
    (img : ImageData) (x y : Nat) (f t : List Nat)
    (hlen : img.data.length = img.width * img.height * 4)
    (hx : x < img.width) (hy : y < img.height)
    (hf4 : f.length = 4) (hfa : f.getD 3 0 = 255)
    (hne : colorsMatch f t = false) :
    ∃ img', floodFill x y f t img = some img' ∧
      img'.width = img.width ∧ img'.height = img.height ∧
      (∀ p : Nat × Nat, region img.width img.height img.data t (x, y) p →
        getColorAtPixel img.width img'.data p.1 p.2 = f) ∧
      (∀ p : Nat × Nat, p.1 < img.width → p.2 < img.height →
        ¬ region img.width img.height img.data t (x, y) p →
        getColorAtPixel img.width img'.data p.1 p.2 =
          getColorAtPixel img.width img.data p.1 p.2) := by
  have hwc : writtenColor f = f := writtenColor_eq_self hf4 hfa
  have hwt : colorsMatch (writtenColor f) t = false := by rw [hwc]; exact hne
  obtain ⟨d', hd'⟩ := floodFill_isSome hlen hx hy hwt
  have hmaster := flood_master (x, y) hlen hwt
    (4 * img.width * img.height + 2) [(x, y)] ∅ img.data
    ⟨rfl, fun p _ _ => by rw [if_neg (Finset.not_mem_empty p)]⟩
    (by
      intro p hp
      simp only [List.mem_singleton] at hp
      subst hp
      exact ⟨hx, hy, fun hm => ReachIn.refl _ ⟨hx, hy, hm⟩⟩)
    (fun p hp => absurd hp (Finset.not_mem_empty p))
    (by
      intro r hr
      refine Or.inr ⟨(x, y), List.mem_singleton.mpr rfl, ?_⟩
      exact reachIn_mono (fun q hq => ⟨hq, Finset.not_mem_empty q⟩) hr)
    d' hd'
  obtain ⟨F', hcharF, hFsub, hFsup⟩ := hmaster
  refine ⟨{ img with data := d' }, ?_, rfl, rfl, ?_, ?_⟩
  · simp only [floodFill, hd', Option.map_some']
  · intro p hp
    have hpF : p ∈ F' := hFsup p hp
    have hpB := reachIn_dest hp
    simp only [regionS] at hpB
    have heq := hcharF.2 p hpB.1 hpB.2.1
    rw [if_pos hpF, hwc] at heq
    exact heq
  · intro p hp1 hp2 hnreg
    have hpF : p ∉ F' := fun hmem => hnreg (hFsub p hmem)
    have heq := hcharF.2 p hp1 hp2
    rw [if_neg hpF] at heq
    exact heq

/-- C1: for every raster containing a fully enclosed 4-connected region of
uniform color whose border pixels all differ from that color — formalized as
the 4-connected component `region` of the seed among pixels matching the
target color `t` read at the seed, which such a region is — calling
`floodFill` from any seed pixel inside the region with a new fill color
(a user color: four components, alpha 255, not matching `t`) sets exactly
the pixels of that region to the fill color and leaves every pixel outside
the region unchanged.  The statement needs no enclosure hypothesis: it holds
for every component, enclosed or touching the raster edge. -/
theorem c1_floodFill_repaints_exactly_the_seed_region
    (img : ImageData) (x y : Nat) (f t : List Nat)
    (hlen : img.data.length = img.width * img.height * 4)
    (hx : x < img.width) (hy : y < img.height)
    (ht : t = getColorAtPixel img.width img.data x y)
    (hf4 : f.length = 4) (hfa : f.getD 3 0 = 255)
    (hne : colorsMatch f t = false) :
    ∃ img', floodFill x y f t img = some img' ∧
      img'.width = img.width ∧ img'.height = img.height ∧
      (∀ p : Nat × Nat, region img.width img.height img.data t (x, y) p →
        getColorAtPixel img.width img'.data p.1 p.2 = f) ∧
      (∀ p : Nat × Nat, p.1 < img.width → p.2 < img.height →
        ¬ region img.width img.height img.data t (x, y) p →
        getColorAtPixel img.width img'.data p.1 p.2 =
          getColorAtPixel img.width img.data p.1 p.2) :=
  floodFill_fills_exactly_region img x y f t hlen hx hy hf4 hfa hne

/-- C1 witness: a concrete 2 × 2 raster whose top row is one color and whose
bottom row another, filled from the top-left corner. -/
theorem c1_witness :
    ∃ img', floodFill 0 0 [1,2,3,255] [5,5,5,255]
        { width := 2, height := 2,
          data := [5,5,5,255, 5,5,5,255, 9,9,9,255, 9,9,9,255] } =
        some img' ∧
      img'.width = 2 ∧ img'.height = 2 ∧
      (∀ p : Nat × Nat,
        region 2 2 [5,5,5,255, 5,5,5,255, 9,9,9,255, 9,9,9,255] [5,5,5,255]
          (0, 0) p →
        getColorAtPixel 2 img'.data p.1 p.2 = [1,2,3,255]) ∧
      (∀ p : Nat × Nat, p.1 < 2 → p.2 < 2 →
        ¬ region 2 2 [5,5,5,255, 5,5,5,255, 9,9,9,255, 9,9,9,255] [5,5,5,255]
          (0, 0) p →
        getColorAtPixel 2 img'.data p.1 p.2 =
          getColorAtPixel 2 [5,5,5,255, 5,5,5,255, 9,9,9,255, 9,9,9,255]
            p.1 p.2) :=
  c1_floodFill_repaints_exactly_the_seed_region
    { width := 2, height := 2,
      data := [5,5,5,255, 5,5,5,255, 9,9,9,255, 9,9,9,255] }
    0 0 [1,2,3,255] [5,5,5,255] (by decide) (by decide) (by decide)
    (by decide) (by decide) (by decide) (by decide)

/-- C3 (amended): for every well-formed raster, every in-bounds seed, and
every pair of colors such that the color actually stored by the repaint
(`writtenColor fillColor`, alpha forced to 255) does not match `targetColor`
— in particular whenever `fillColor` itself has alpha 255 and differs from
`targetColor`, as every color produced by `hexToRgb` does — the stack-based
flood-fill loop terminates: each pixel transitions from matching
`targetColor` to not matching it at most once, and only matching pixels push
new stack entries. -/
theorem c3_floodFill_terminates
    (img : ImageData) (x y : Nat) (f t : List Nat)
    (hlen : img.data.length = img.width * img.height * 4)
    (hx : x < img.width) (hy : y < img.height)
    (ht : t = getColorAtPixel img.width img.data x y)
    (hwt : colorsMatch (writtenColor f) t = false) :
    floodFillTerminates x y f t img := by
  obtain ⟨d', hd'⟩ := floodFill_isSome hlen hx hy hwt
  exact ⟨4 * img.width * img.height + 2, d', hd'⟩

/-- C3 witness: a concrete 1 × 1 transparent raster filled with an opaque
color. -/
theorem c3_witness :
    floodFillTerminates 0 0 [1,2,3,255] [0,0,0,0]
      { width := 1, height := 1, data := [0,0,0,0] } :=
  c3_floodFill_terminates { width := 1, height := 1, data := [0,0,0,0] }
    0 0 [1,2,3,255] [0,0,0,0] (by decide) (by decide) (by decide) (by decide)
    (by decide)

lemma c3aux_step1 (n : Nat) :
    floodFillLoop [0,0,0,0] [0,0,0,255] 2 1 (n + 1) [(0, 0)]
      [0,0,0,255, 0,0,0,255] =
    floodFillLoop [0,0,0,0] [0,0,0,255] 2 1 n [(1, 0)]
      [0,0,0,255, 0,0,0,255] := rfl

lemma c3aux_step2 (n : Nat) :
    floodFillLoop [0,0,0,0] [0,0,0,255] 2 1 (n + 1) [(1, 0)]
      [0,0,0,255, 0,0,0,255] =
    floodFillLoop [0,0,0,0] [0,0,0,255] 2 1 n [(0, 0)]
      [0,0,0,255, 0,0,0,255] := rfl

/-- On a 2 × 1 opaque black raster, filling with transparent black cycles
forever between the two pixels: the repaint forces alpha back to 255, so
both pixels keep matching the target color. -/
lemma c3aux_never_terminates (n : Nat) :
    floodFillLoop [0,0,0,0] [0,0,0,255] 2 1 n [(0, 0)]
      [0,0,0,255, 0,0,0,255] = none :=
  match n with
  | 0 => rfl
  | 1 => rfl
  | n + 2 => by
    rw [c3aux_step1 (n + 1), c3aux_step2 n]
    exact c3aux_never_terminates n

/-- C3 counterexample: on a 2 × 1 opaque black raster, the seed (0,0) is in
bounds, `targetColor` is the color read at the seed, and
`fillColor = [0,0,0,0]` differs from `targetColor = [0,0,0,255]`, yet the
flood-fill loop never terminates: `setColorAtPixel` forces alpha to 255, so
the repainted pixel still matches the target color and the two pixels push
each other forever. -/
theorem c3_counterexample :
    getColorAtPixel 2 [0,0,0,255, 0,0,0,255] 0 0 = [0,0,0,255] ∧
    colorsMatch [0,0,0,0] [0,0,0,255] = false ∧
    ¬ floodFillTerminates 0 0 [0,0,0,0] [0,0,0,255]
      { width := 2, height := 1, data := [0,0,0,255, 0,0,0,255] } := by
  refine ⟨by decide, by decide, ?_⟩
  intro hterm
  simp only [floodFillTerminates] at hterm
  obtain ⟨fuel, d', hrun⟩ := hterm
  rw [c3aux_never_terminates fuel] at hrun
  cases hrun

/-- C2: for every raster and every in-bounds seed pixel, if the color read
at the seed equals the requested fill color (all four R, G, B, A components
equal, which is exactly `colorsMatch`), then the fill operation leaves every
pixel of the raster unchanged: the guard of `fill` skips the flood fill and
never writes the image data back. -/
theorem c2_fill_is_noop_when_target_matches_fill
    (s : AppState) (x y : Nat)
    (hx : x < s.raster.width) (hy : y < s.raster.height)
    (hfm : s.fillMode = true)
    (hmatch : colorsMatch (hexToRgb s.color)
      (getColorAtPixel s.raster.width s.raster.data x y) = true) :
    (fillApp x y s).raster = s.raster := by
  simp only [fillApp, hfm, Bool.not_true, Bool.false_eq_true, if_false,
    saveHistoryS, hmatch, if_true]

/-- C2 witness: a 1 × 1 opaque white raster filled with the default white
color. -/
theorem c2_witness :
    (fillApp 0 0 { initState 1 1 with
      fillMode := true,
      raster := { width := 1, height := 1, data := [255,255,255,255] } }
      ).raster =
    ({ initState 1 1 with
      fillMode := true,
      raster := { width := 1, height := 1, data := [255,255,255,255] } } :
      AppState).raster :=
  c2_fill_is_noop_when_target_matches_fill _ 0 0 (by decide) (by decide)
    (by decide) (by decide)

/-- C4 (amended): for every in-bounds coordinate the access uses the linear
offset `(y*width+x)*4`, but out-of-range coordinates are not rejected:
reading or writing at `(x, y)` with any `x` behaves exactly as at
`(x % width, y + x / width)`, silently wrapping into later rows instead of
failing with an out-of-bounds condition. -/
theorem c4_accessors_wrap_instead_of_failing
    (w : Nat) (hw : 0 < w) (d : List Nat) (x y : Nat) (c : List Nat) :
    getColorAtPixel w d x y = getColorAtPixel w d (x % w) (y + x / w) ∧
    setColorAtPixel w d x y c = setColorAtPixel w d (x % w) (y + x / w) c := by
  have hidx : (y + x / w) * w + x % w = y * w + x := by
    calc (y + x / w) * w + x % w = y * w + (w * (x / w) + x % w) := by ring
    _ = y * w + x := by rw [Nat.div_add_mod]
  constructor <;> simp only [getColorAtPixel, setColorAtPixel, hidx]

/-- C4 witness: reading and writing at x = 3 on a width-2 raster behaves as
at pixel (1, y+1). -/
theorem c4_witness :
    (getColorAtPixel 2 [1,1,1,255, 2,2,2,255, 3,3,3,255, 4,4,4,255] 3 0 =
      getColorAtPixel 2 [1,1,1,255, 2,2,2,255, 3,3,3,255, 4,4,4,255]
        (3 % 2) (0 + 3 / 2)) ∧
    (setColorAtPixel 2 [1,1,1,255, 2,2,2,255, 3,3,3,255, 4,4,4,255] 3 0
        [9,9,9,255] =
      setColorAtPixel 2 [1,1,1,255, 2,2,2,255, 3,3,3,255, 4,4,4,255]
        (3 % 2) (0 + 3 / 2) [9,9,9,255]) :=
  c4_accessors_wrap_instead_of_failing 2 (by decide)
    [1,1,1,255, 2,2,2,255, 3,3,3,255, 4,4,4,255] 3 0 [9,9,9,255]

/-- C4 counterexample: on a concrete 2 × 2 raster, the out-of-range
coordinate (2, 0) is neither rejected nor clamped: reading it silently
returns the color of pixel (0, 1), and writing through it overwrites pixel
(0, 1) — the accessors wrap rather than fail. -/
theorem c4_counterexample :
    getColorAtPixel 2 [1,1,1,255, 2,2,2,255, 3,3,3,255, 4,4,4,255] 2 0 =
      [3,3,3,255] ∧
    getColorAtPixel 2 [1,1,1,255, 2,2,2,255, 3,3,3,255, 4,4,4,255] 0 1 =
      [3,3,3,255] ∧
    getColorAtPixel 2
      (setColorAtPixel 2 [1,1,1,255, 2,2,2,255, 3,3,3,255, 4,4,4,255] 2 0
        [9,9,9,255]) 0 1 = [9,9,9,255] := by decide

/-- C5 (amended): every pixel written by a fill operation ends with alpha
255 (`setColorAtPixel` forces A = 255), and every pixel painted by a
paint-mode stroke (source-over with an opaque stroke color) ends with alpha
255; erase-mode strokes instead make the covered pixels fully
transparent. -/
theorem c5_fill_and_paint_write_opaque_pixels :
    (∀ (w : Nat) (d : List Nat) (x y : Nat) (c : List Nat),
      (y * w + x) * 4 + 3 < d.length →
      (getColorAtPixel w (setColorAtPixel w d x y c) x y).getD 3 0 = 255) ∧
    (∀ c dst : List Nat, (compositePixel false c dst).getD 3 0 = 255) := by
  constructor
  · intro w d x y c h
    rw [getColor_setColor_same _ _ _ _ _ h]
    rfl
  · intro c dst
    rfl

/-- C5 witness: a concrete fill write and a concrete paint-mode stroke pixel
both end opaque, even when the requested color has alpha 0. -/
theorem c5_witness :
    (getColorAtPixel 1 (setColorAtPixel 1 [0,0,0,0] 0 0 [7,8,9,0]) 0 0).getD
      3 0 = 255 ∧
    (compositePixel false [7,8,9,0] [1,1,1,1]).getD 3 0 = 255 :=
  ⟨c5_fill_and_paint_write_opaque_pixels.1 1 [0,0,0,0] 0 0 [7,8,9,0]
      (by decide),
    c5_fill_and_paint_write_opaque_pixels.2 [7,8,9,0] [1,1,1,1]⟩

/-- C5 counterexample: an erase-mode stroke over an opaque pixel leaves it
fully transparent (alpha 0), not alpha 255 — erasing is a user action that
produces transparent pixels. -/
theorem c5_counterexample :
    compositePixel true [255,255,255,255] [5,5,5,255] = [0,0,0,0] ∧
    (compositePixel true [255,255,255,255] [5,5,5,255]).getD 3 0 ≠ 255 := by
  decide

/-! Helper lemmas about the event step function. -/

lemma undoApp_of_empty (s : AppState) (h : s.history = []) : undoApp s = s := by
  simp [undoApp, h]

lemma fillApp_history (x y : Nat) (s : AppState) (hfm : s.fillMode = true) :
    (fillApp x y s).history = s.history ++ [s.raster] := by
  simp only [fillApp, hfm, Bool.not_true, Bool.false_eq_true, if_false]
  split <;> rfl

lemma fillApp_sizeValue (x y : Nat) (s : AppState) :
    (fillApp x y s).sizeValue = s.sizeValue := by
  simp only [fillApp]
  split
  · rfl
  · split <;> rfl

lemma drawApp_history (sf : StrokeFn) (x y : Nat) (s : AppState) :
    (drawApp sf x y s).history = s.history := by
  simp only [drawApp]
  split <;> rfl

lemma drawApp_sizeValue (sf : StrokeFn) (x y : Nat) (s : AppState) :
    (drawApp sf x y s).sizeValue = s.sizeValue := by
  simp only [drawApp]
  split <;> rfl

/-- How one event changes the history length: every mousedown (stroke start
or fill) pushes one snapshot, an undo pops one if any, a clear empties the
stack, everything else leaves it alone. -/
lemma step_history_length (sf : StrokeFn) (s : AppState) (e : Event) :
    (step sf s e).history.length =
      match e with
      | .mousedown _ _ => s.history.length + 1
      | .undo => s.history.length - 1
      | .clear => 0
      | _ => s.history.length := by
  cases e with
  | mousedown x y =>
    show (if s.fillMode then fillApp x y s
      else startDrawingApp x y s).history.length = s.history.length + 1
    by_cases hfm : s.fillMode
    · rw [if_pos hfm, fillApp_history x y s hfm, List.length_append]
      rfl
    · rw [if_neg hfm]
      simp only [startDrawingApp, hfm, Bool.false_eq_true, if_false,
        saveHistoryS, List.length_append]
      rfl
  | mousemove x y =>
    show (drawApp sf x y s).history.length = s.history.length
    rw [drawApp_history]
  | undo =>
    show (undoApp s).history.length = s.history.length - 1
    by_cases hh : s.history.isEmpty
    · rw [undoApp_of_empty s (List.isEmpty_iff.mp hh)]
      rw [List.isEmpty_iff.mp hh]
      rfl
    · simp only [undoApp, hh, Bool.false_eq_true, if_false]
      match hl : s.history.getLast? with
      | none =>
        exact absurd (List.getLast?_eq_none_iff.mp hl)
          (by simpa using hh)
      | some prev =>
        simp only [saveCanvasS, List.length_dropLast]
  | mouseup => rfl
  | toggleErase => rfl
  | toggleFill => rfl
  | chooseColor c => rfl
  | setSize n => rfl
  | clear => rfl

/-- The history length along any trace is computed by the `histCount`
fold. -/
lemma history_length_eq_histCount (sf : StrokeFn) (tr : List Event) :
    ∀ s : AppState,
      (runFrom sf s tr).history.length = histCount s.history.length tr := by
  induction tr with
  | nil => intro s; rfl
  | cons e tr ih =>
    intro s
    have hstep : runFrom sf s (e :: tr) = runFrom sf (step sf s e) tr := rfl
    rw [hstep, ih (step sf s e)]
    cases e <;> rw [step_history_length] <;> rfl

/-- Every mousedown pushes the current raster as the new top history
entry, before any mutation of the raster happens. -/
lemma step_mousedown_history (sf : StrokeFn) (s : AppState) (x y : Nat) :
    (step sf s (.mousedown x y)).history = s.history ++ [s.raster] := by
  show (if s.fillMode then fillApp x y s else startDrawingApp x y s).history =
    s.history ++ [s.raster]
  by_cases hfm : s.fillMode
  · rw [if_pos hfm, fillApp_history x y s hfm]
  · rw [if_neg hfm]
    simp only [startDrawingApp, hfm, Bool.false_eq_true, if_false,
      saveHistoryS]

/-- C6 (amended): the number of history entries equals the number of
destructive operations (mousedowns: stroke starts or fills) minus the number
of effective undos since the last clear — the fold `histCount`, in which an
undo on an empty stack subtracts nothing — and a snapshot is pushed before
the destructive operation mutates the raster, so immediately after any
destructive operation the top entry is the raster state just prior to it. -/
theorem c6_history_counts_and_top_entry (sf : StrokeFn) (w h : Nat) :
    (∀ tr : List Event, (run sf w h tr).history.length = histCount 0 tr) ∧
    (∀ (tr : List Event) (x y : Nat),
      (step sf (run sf w h tr) (.mousedown x y)).history.getLast? =
        some (run sf w h tr).raster) := by
  constructor
  · intro tr
    have := history_length_eq_histCount sf tr (initState w h)
    exact this
  · intro tr x y
    rw [step_mousedown_history]
    exact List.getLast?_concat _

/-- C6 counterexample: after the trace "fill or stroke start, then undo"
one destructive operation was performed since the last clear, but the
history stack is empty: the claimed equality fails once an undo occurs. -/
theorem c6_counterexample :
    destructiveSince 0 [Event.mousedown 0 0, Event.undo] = 1 ∧
    (run strokeFn0 1 1 [Event.mousedown 0 0, Event.undo]).history.length
      = 0 := by
  constructor
  · rfl
  · decide

/-- C7: for every state with an empty history stack, performing undo signals
`Empty` by returning before touching anything: the raster, the history, the
`undoEnabled` flag and the persisted state are all left exactly as they
were (the whole state is unchanged). -/
theorem c7_undo_on_empty_history_is_noop (sf : StrokeFn) (s : AppState)
    (h : s.history = []) : step sf s .undo = s :=
  undoApp_of_empty s h

/-- C7 witness: undo in the initial state. -/
theorem c7_witness : step strokeFn0 (initState 1 1) .undo = initState 1 1 :=
  c7_undo_on_empty_history_is_noop strokeFn0 (initState 1 1) rfl

/-- Passive events (everything except mousedown, mousemove and clear)
neither write the persisted key nor grow an empty history. -/
lemma passive_preserves (sf : StrokeFn) : ∀ (tr : List Event) (s : AppState),
    tr.all passive = true → s.persisted = none → s.history = [] →
    (runFrom sf s tr).persisted = none ∧ (runFrom sf s tr).history = [] := by
  intro tr
  induction tr with
  | nil => intro s _ hp hh; exact ⟨hp, hh⟩
  | cons e tr ih =>
    intro s hall hp hh
    rw [List.all_cons, Bool.and_eq_true] at hall
    have hstep : runFrom sf s (e :: tr) = runFrom sf (step sf s e) tr := rfl
    rw [hstep]
    cases e with
    | mousedown x y => simp [passive] at hall
    | mousemove x y => simp [passive] at hall
    | clear => simp [passive] at hall
    | mouseup => exact ih _ hall.2 hp hh
    | toggleErase => exact ih _ hall.2 hp hh
    | toggleFill => exact ih _ hall.2 hp hh
    | chooseColor c => exact ih _ hall.2 hp hh
    | setSize n => exact ih _ hall.2 hp hh
    | undo =>
      have : step sf s .undo = s := undoApp_of_empty s hh
      rw [this]
      exact ih _ hall.2 hp hh

/-- C8: after `clear()` the persisted key is absent (clear saves the cleared
canvas but then removes the key); it stays absent under any sequence of
events that performs no save (no mousedown, mousemove or clear); and loading
with the key absent signals `Absent` by leaving the state untouched and
proceeding with the current (blank) raster.  Other mutating operations do
overwrite the key, but clear removes it afterwards. -/
theorem c8_clear_removes_key_and_load_is_absent (sf : StrokeFn) :
    (∀ s : AppState, (step sf s .clear).persisted = none) ∧
    (∀ (s : AppState) (suffix : List Event), suffix.all passive = true →
      (runFrom sf (step sf s .clear) suffix).persisted = none) ∧
    (∀ s : AppState, s.persisted = none →
      loadCanvasFromLocalStorage s = s) := by
  refine ⟨fun s => rfl, ?_, ?_⟩
  · intro s suffix hall
    exact (passive_preserves sf suffix (step sf s .clear) hall rfl rfl).1
  · intro s hp
    simp [loadCanvasFromLocalStorage, hp]

/-- C8 witness: clear in the initial state, followed by a passive suffix,
and a load on the empty store. -/
theorem c8_witness :
    (step strokeFn0 (initState 1 1) .clear).persisted = none ∧
    (runFrom strokeFn0 (step strokeFn0 (initState 1 1) .clear)
      [Event.undo, Event.toggleErase]).persisted = none ∧
    loadCanvasFromLocalStorage (initState 1 1) = initState 1 1 :=
  ⟨(c8_clear_removes_key_and_load_is_absent strokeFn0).1 (initState 1 1),
    (c8_clear_removes_key_and_load_is_absent strokeFn0).2.1 (initState 1 1)
      [Event.undo, Event.toggleErase] (by decide),
    (c8_clear_removes_key_and_load_is_absent strokeFn0).2.2 (initState 1 1)
      rfl⟩

/-- How one event changes the brush size binding: only the range input does,
and it clamps. -/
lemma step_sizeValue (sf : StrokeFn) (s : AppState) (e : Event) :
    (step sf s e).sizeValue =
      match e with
      | .setSize n => clampSize n
      | _ => s.sizeValue := by
  cases e with
  | mousedown x y =>
    show (if s.fillMode then fillApp x y s
      else startDrawingApp x y s).sizeValue = s.sizeValue
    by_cases hfm : s.fillMode
    · rw [if_pos hfm, fillApp_sizeValue]
    · rw [if_neg hfm]
      simp only [startDrawingApp]
      split <;> rfl
  | mousemove x y => exact drawApp_sizeValue sf x y s
  | undo =>
    show (undoApp s).sizeValue = s.sizeValue
    simp only [undoApp]
    split
    · rfl
    · split <;> rfl
  | mouseup => rfl
  | toggleErase => rfl
  | toggleFill => rfl
  | chooseColor c => rfl
  | setSize n => rfl
  | clear => rfl

lemma clampSize_in_range (n : Nat) :
    minSize ≤ clampSize n ∧ clampSize n ≤ maxSize := by
  simp only [clampSize, minSize, maxSize]
  omega

/-- In every reachable state the brush size binding is within the configured
bounds. -/
lemma sizeValue_in_range (sf : StrokeFn) : ∀ (tr : List Event) (s : AppState),
    minSize ≤ s.sizeValue → s.sizeValue ≤ maxSize →
    minSize ≤ (runFrom sf s tr).sizeValue ∧
      (runFrom sf s tr).sizeValue ≤ maxSize := by
  intro tr
  induction tr with
  | nil => intro s h1 h2; exact ⟨h1, h2⟩
  | cons e tr ih =>
    intro s h1 h2
    have hstep : runFrom sf s (e :: tr) = runFrom sf (step sf s e) tr := rfl
    rw [hstep]
    cases e <;>
      exact ih _
        (by rw [step_sizeValue]
            first
              | exact h1
              | exact (clampSize_in_range _).1)
        (by rw [step_sizeValue]
            first
              | exact h2
              | exact (clampSize_in_range _).2)

/-- C9: for every requested brush size, the width actually applied when
rendering a stroke segment — the `lineWidth` field `draw` installs from
`sizeValue` — lies within the configured bounds `[minSize, maxSize] =
[1, 100]` in every reachable state, because the bounded range input clamps
every requested value; in particular a requested size of 0 is clamped to 1
and a requested 150 to 100, never applied verbatim. -/
theorem c9_applied_stroke_width_is_clamped (sf : StrokeFn) (w h : Nat) :
    (∀ (tr : List Event) (x y : Nat),
      minSize ≤ (drawParams (run sf w h tr) x y).lineWidth ∧
      (drawParams (run sf w h tr) x y).lineWidth ≤ maxSize) ∧
    clampSize 0 = minSize ∧ clampSize 150 = maxSize := by
  refine ⟨?_, rfl, rfl⟩
  intro tr x y
  exact sizeValue_in_range sf tr (initState w h)
    (by show (1 : Nat) ≤ 5; decide) (by show (5 : Nat) ≤ 100; decide)

/-- C10: a clear cannot be undone: `clear()` empties the history stack and
disables undo without first pushing a snapshot of the pre-clear raster, so
undo immediately after clear is a complete no-op and the raster stays the
cleared blank raster rather than the pre-clear content. -/
theorem c10_clear_cannot_be_undone (sf : StrokeFn) (s : AppState) :
    (step sf s .clear).history = [] ∧
    (step sf s .clear).undoEnabled = false ∧
    step sf (step sf s .clear) .undo = step sf s .clear ∧
    (step sf s .clear).raster =
      blankRaster s.raster.width s.raster.height := by
  refine ⟨rfl, rfl, ?_, rfl⟩
  exact undoApp_of_empty _ rfl

end DrawingApp
